import Mathlib

/-!
Verification development for the keephive backup daemon.

Each section shallowly embeds one part of the Rust source
(`src/src/...`) as executable Lean definitions and proves the
specification claims about it.  File systems, clocks and task outcomes
are modelled as explicit values threaded through the functions.
-/

namespace KeepHive

/-! ## Characters and small string helpers

Characters that are awkward to quote are built from their code points.
-/

def nullChar : Char := Char.ofNat 0

def quoteChar : Char := Char.ofNat 34

def backslashChar : Char := Char.ofNat 92

/-- Embeds Rust `char::is_control`: the Unicode `Cc` category,
`U+0000..U+001F` and `U+007F..U+009F`. -/
def isControlChar (c : Char) : Bool :=
  c.val < 32 || (127 ≤ c.val && c.val ≤ 159)

/-- `SubSeg a b` holds when the list `a` occurs contiguously inside `b`
(the substring relation used to state what an error message contains). -/
def SubSeg (a b : List Char) : Prop := ∃ u v, u ++ a ++ v = b

theorem SubSeg.refl (a : List Char) : SubSeg a a := ⟨[], [], by simp⟩

theorem SubSeg.of_append_left {a b : List Char} (c : List Char) (h : SubSeg a b) :
    SubSeg a (b ++ c) := by
  obtain ⟨u, v, rfl⟩ := h
  exact ⟨u, v ++ c, by simp⟩

theorem SubSeg.of_append_right {a b : List Char} (c : List Char) (h : SubSeg a b) :
    SubSeg a (c ++ b) := by
  obtain ⟨u, v, rfl⟩ := h
  exact ⟨c ++ u, v, by simp⟩

/-! ## Backup-name sanitizer

Embeds `BackupOrchestrator::sanitize_backup_name`
(`src/src/core/backup.rs`, lines 140-178).  Strings are modelled as
`List Char`, matching Rust's iteration over `chars()`.
-/

/-- Embeds `WINDOWS_RESERVED_NAMES` from
`src/src/platform/windows/constants.rs` (re-exported to
`config::models::WINDOWS_RESERVED`, the constant `sanitize_backup_name`
uses). -/
def WINDOWS_RESERVED : List String :=
  ["aux", "con", "nul", "prn",
   "com0", "com1", "com2", "com3", "com4",
   "com5", "com6", "com7", "com8", "com9",
   "lpt0", "lpt1", "lpt2", "lpt3", "lpt4",
   "lpt5", "lpt6", "lpt7", "lpt8", "lpt9"]

/-- Embeds the per-character closure of `sanitize_backup_name`.  The four
flags record whether the whole input starts/ends with a dot or a space
(Rust evaluates `name.starts_with(c) || name.ends_with(c)` against the
original `name`). -/
def sanChar (sDot eDot sSpace eSpace : Bool) (c : Char) : Char :=
  if c = '/' || c = backslashChar then '_'
  else if c = '<' || c = '>' || c = ':' || c = quoteChar || c = '|' || c = '?' || c = '*' then '_'
  else if c = nullChar then '_'
  else if isControlChar c then '_'
  else if c = '.' && (sDot || eDot) then '_'
  else if c = ' ' && (sSpace || eSpace) then '_'
  else c

/-- The character map stage of the sanitizer. -/
def sanMap (name : List Char) : List Char :=
  name.map (sanChar (decide (name.head? = some '.')) (decide (name.getLast? = some '.'))
    (decide (name.head? = some ' ')) (decide (name.getLast? = some ' ')))

/-- Removes trailing characters satisfying `p` (the suffix half of Rust
`trim_matches`). -/
def dropTrailing (p : Char → Bool) (l : List Char) : List Char :=
  (l.reverse.dropWhile p).reverse

/-- Embeds `.trim_matches('_')`. -/
def trimUnderscores (l : List Char) : List Char :=
  dropTrailing (· = '_') (l.dropWhile (· = '_'))

/-- The map/trim/truncate stage of `sanitize_backup_name`:
`chars().map(..).collect().trim_matches('_').chars().take(255)`. -/
def sanitizedCore (name : List Char) : List Char :=
  (trimUnderscores (sanMap name)).take 255

/-- Embeds `sanitized.split('.').next().unwrap_or(..).to_lowercase()`:
the part before the first dot, lowercased.  (`Char.toLower` lowercases
ASCII; the reserved names compared against are all ASCII.) -/
def baseNameOf (s : List Char) : List Char :=
  (s.takeWhile (fun c => !(c = '.'))).map Char.toLower

/-- Embeds `BackupOrchestrator::sanitize_backup_name`
(`src/src/core/backup.rs`, lines 140-178). -/
def sanitize_backup_name (name : List Char) : List Char :=
  let sanitized := sanitizedCore name
  if sanitized.isEmpty then "backup".data
  else
    let base_name := baseNameOf sanitized
    if WINDOWS_RESERVED.contains (String.mk base_name) then '_' :: sanitized
    else sanitized

/-- String-level wrapper of the sanitizer. -/
def sanitizeStr (s : String) : String :=
  String.mk (sanitize_backup_name s.data)

/-! ### Facts about the sanitizer used for the idempotence analysis -/

/-- A character is clean when none of the replacement rules of the
sanitizer apply to it (dots and spaces excepted, which are conditional). -/
def cleanChar (c : Char) : Bool :=
  !((c = '/' || c = backslashChar) ||
    (c = '<' || c = '>' || c = ':' || c = quoteChar || c = '|' || c = '?' || c = '*') ||
    c = nullChar || isControlChar c)

theorem sanChar_clean (b1 b2 b3 b4 : Bool) (c : Char) :
    cleanChar (sanChar b1 b2 b3 b4 c) = true := by
  unfold sanChar
  split
  · decide
  split
  · decide
  split
  · decide
  split
  · decide
  split
  · decide
  split
  · decide
  rename_i hA hB hC hD _ _
  unfold cleanChar
  simp only [Bool.not_eq_true] at hA hB hC hD
  simp [hA, hB, hC, hD]

theorem sanChar_id_of_clean (c : Char) (h : cleanChar c = true) :
    sanChar false false false false c = c := by
  unfold cleanChar at h
  rw [Bool.not_eq_true'] at h
  simp only [Bool.or_eq_false_iff] at h
  unfold sanChar
  simp_all

theorem mem_sanMap_clean (n : List Char) : ∀ c ∈ sanMap n, cleanChar c = true := by
  intro c hc
  obtain ⟨a, _, rfl⟩ := List.mem_map.mp hc
  exact sanChar_clean _ _ _ _ a

theorem mem_dropTrailing (p : Char → Bool) (l : List Char) :
    dropTrailing p l ⊆ l := by
  intro c hc
  unfold dropTrailing at hc
  rw [List.mem_reverse] at hc
  exact List.mem_reverse.mp ((List.dropWhile_sublist p).subset hc)

theorem mem_trimUnderscores (l : List Char) : trimUnderscores l ⊆ l := by
  intro c hc
  exact (List.dropWhile_sublist _).subset (mem_dropTrailing _ _ hc)

theorem mem_sanitizedCore (n : List Char) : sanitizedCore n ⊆ sanMap n := by
  intro c hc
  exact mem_trimUnderscores _ ((List.take_sublist _ _).subset hc)

theorem dropWhile_eq_self_of_head (p : Char → Bool) (l : List Char)
    (h : ∀ a, l.head? = some a → p a = false) : l.dropWhile p = l := by
  cases l with
  | nil => rfl
  | cons x xs => rw [List.dropWhile_cons, h x rfl]; simp

theorem head_not_of_dropWhile (p : Char → Bool) (l : List Char) :
    ∀ a, (l.dropWhile p).head? = some a → p a = false := by
  induction l with
  | nil => intro a h; simp [List.dropWhile] at h
  | cons x xs ih =>
    intro a h
    rw [List.dropWhile_cons] at h
    by_cases hx : p x = true
    · rw [if_pos hx] at h; exact ih a h
    · rw [if_neg hx] at h
      simp only [List.head?_cons, Option.some.injEq] at h
      rw [← h]
      exact Bool.not_eq_true _ |>.mp hx

theorem dropTrailing_append (p : Char → Bool) (l : List Char) :
    dropTrailing p l ++ (l.reverse.takeWhile p).reverse = l := by
  unfold dropTrailing
  rw [← List.reverse_append, List.takeWhile_append_dropWhile, List.reverse_reverse]

theorem head?_dropTrailing (p : Char → Bool) (l : List Char)
    (h : dropTrailing p l ≠ []) : (dropTrailing p l).head? = l.head? := by
  conv_rhs => rw [← dropTrailing_append p l]
  rw [List.head?_append]
  cases hd : dropTrailing p l with
  | nil => exact absurd hd h
  | cons a t => rfl

theorem head?_take_ne_zero (n : Nat) (l : List Char) (hn : n ≠ 0) :
    (l.take n).head? = l.head? := by
  cases l with
  | nil => simp
  | cons a t =>
    cases n with
    | zero => exact absurd rfl hn
    | succ m => rfl

theorem dropTrailing_eq_self (p : Char → Bool) (l : List Char)
    (h : ∀ a, l.getLast? = some a → p a = false) : dropTrailing p l = l := by
  unfold dropTrailing
  rw [dropWhile_eq_self_of_head p l.reverse
    (fun a ha => h a (by rwa [List.head?_reverse] at ha)), List.reverse_reverse]

theorem trimUnderscores_eq_self (s : List Char)
    (hh : s.head? ≠ some '_') (hl : s.getLast? ≠ some '_') :
    trimUnderscores s = s := by
  unfold trimUnderscores
  rw [dropWhile_eq_self_of_head _ s (fun a ha => by
    rw [ha] at hh
    simpa using fun e => hh (by rw [e]))]
  exact dropTrailing_eq_self _ s (fun a ha => by
    rw [ha] at hl
    simpa using fun e => hl (by rw [e]))

theorem head?_sanitizedCore_ne_underscore (n : List Char) :
    (sanitizedCore n).head? ≠ some '_' := by
  intro hcontra
  unfold sanitizedCore at hcontra
  by_cases he : trimUnderscores (sanMap n) = []
  · rw [he] at hcontra; simp at hcontra
  · rw [head?_take_ne_zero 255 _ (by decide)] at hcontra
    unfold trimUnderscores at hcontra
    have hne : dropTrailing (· = '_') ((sanMap n).dropWhile (· = '_')) ≠ [] := he
    rw [head?_dropTrailing _ _ hne] at hcontra
    have := head_not_of_dropWhile (· = '_') (sanMap n) '_' hcontra
    simp at this

theorem getLast?_cons_of_ne_nil (a : Char) (s : List Char) (h : s ≠ []) :
    (a :: s).getLast? = s.getLast? := by
  cases hgl : s.getLast? with
  | none => exact absurd (List.getLast?_eq_none_iff.mp hgl) h
  | some b => rw [List.getLast?_cons, hgl]; rfl

theorem sanMap_eq_self (s : List Char)
    (hclean : ∀ c ∈ s, cleanChar c = true)
    (hh1 : s.head? ≠ some '.') (hh2 : s.head? ≠ some ' ')
    (hl1 : s.getLast? ≠ some '.') (hl2 : s.getLast? ≠ some ' ') :
    sanMap s = s := by
  unfold sanMap
  rw [decide_eq_false hh1, decide_eq_false hh2, decide_eq_false hl1, decide_eq_false hl2]
  calc s.map (sanChar false false false false)
      = s.map id := List.map_congr_left (fun a ha => sanChar_id_of_clean a (hclean a ha))
    _ = s := List.map_id s

theorem sanitizedCore_fixed (s : List Char)
    (hclean : ∀ c ∈ s, cleanChar c = true)
    (hh1 : s.head? ≠ some '.') (hh2 : s.head? ≠ some ' ') (hh3 : s.head? ≠ some '_')
    (hl1 : s.getLast? ≠ some '.') (hl2 : s.getLast? ≠ some ' ') (hl3 : s.getLast? ≠ some '_')
    (hlen : s.length ≤ 255) :
    sanitizedCore s = s := by
  unfold sanitizedCore
  rw [sanMap_eq_self s hclean hh1 hh2 hl1 hl2, trimUnderscores_eq_self s hh3 hl3,
    List.take_of_length_le hlen]

theorem sanitize_fixed (s : List Char) (hne : s ≠ [])
    (hclean : ∀ c ∈ s, cleanChar c = true)
    (hh1 : s.head? ≠ some '.') (hh2 : s.head? ≠ some ' ') (hh3 : s.head? ≠ some '_')
    (hl1 : s.getLast? ≠ some '.') (hl2 : s.getLast? ≠ some ' ') (hl3 : s.getLast? ≠ some '_')
    (hlen : s.length ≤ 255) :
    sanitize_backup_name s =
      if WINDOWS_RESERVED.contains (String.mk (baseNameOf s)) then '_' :: s else s := by
  unfold sanitize_backup_name
  rw [sanitizedCore_fixed s hclean hh1 hh2 hh3 hl1 hl2 hl3 hlen]
  rw [if_neg (by simp [List.isEmpty_iff, hne])]

/-- Evaluation of the sanitizer on a reserved-prefixed fixed point
`'_' :: s`: it reproduces `'_' :: s`. -/
theorem sanitize_fixed_underscore (s : List Char) (hne : s ≠ [])
    (hclean : ∀ c ∈ s, cleanChar c = true)
    (hh3 : s.head? ≠ some '_')
    (hl1 : s.getLast? ≠ some '.') (hl2 : s.getLast? ≠ some ' ') (hl3 : s.getLast? ≠ some '_')
    (hlen : s.length ≤ 255)
    (hres : WINDOWS_RESERVED.contains (String.mk (baseNameOf s)) = true) :
    sanitize_backup_name ('_' :: s) = '_' :: s := by
  have hgl : ('_' :: s).getLast? = s.getLast? := getLast?_cons_of_ne_nil _ s hne
  have hmap : sanMap ('_' :: s) = '_' :: s := by
    apply sanMap_eq_self
    · intro c hc
      rcases List.mem_cons.mp hc with rfl | hc
      · decide
      · exact hclean c hc
    · simp
    · simp
    · rw [hgl]; exact hl1
    · rw [hgl]; exact hl2
  have htrim : trimUnderscores ('_' :: s) = s := by
    unfold trimUnderscores
    rw [List.dropWhile_cons, if_pos (by decide),
      dropWhile_eq_self_of_head _ s (fun a ha => by
        rw [ha] at hh3
        simpa using fun e => hh3 (by rw [e]))]
    exact dropTrailing_eq_self _ s (fun a ha => by
      rw [ha] at hl3
      simpa using fun e => hl3 (by rw [e]))
  have hcore : sanitizedCore ('_' :: s) = s := by
    unfold sanitizedCore
    rw [hmap, htrim, List.take_of_length_le hlen]
  unfold sanitize_backup_name
  rw [hcore, if_neg (by simp [List.isEmpty_iff, hne]), if_pos hres]

/-- Idempotence of the sanitizer away from the boundary defects:
whenever the first output does not start with a dot or a space and does
not end with a dot, a space or an underscore, sanitizing again is the
identity. -/
theorem sanitize_backup_name_idem (x : List Char)
    (h1 : (sanitize_backup_name x).head? ≠ some '.')
    (h2 : (sanitize_backup_name x).head? ≠ some ' ')
    (h3 : (sanitize_backup_name x).getLast? ≠ some '.')
    (h4 : (sanitize_backup_name x).getLast? ≠ some ' ')
    (h5 : (sanitize_backup_name x).getLast? ≠ some '_') :
    sanitize_backup_name (sanitize_backup_name x) = sanitize_backup_name x := by
  by_cases he : (sanitizedCore x).isEmpty
  · have hr : sanitize_backup_name x = "backup".data := by
      unfold sanitize_backup_name
      rw [if_pos he]
    rw [hr]
    decide
  · have hne : sanitizedCore x ≠ [] := by
      rw [List.isEmpty_iff] at he
      exact he
    have hclean : ∀ c ∈ sanitizedCore x, cleanChar c = true :=
      fun c hc => mem_sanMap_clean x c (mem_sanitizedCore x hc)
    have hh3 : (sanitizedCore x).head? ≠ some '_' := head?_sanitizedCore_ne_underscore x
    have hlen : (sanitizedCore x).length ≤ 255 := by
      unfold sanitizedCore
      exact List.length_take_le _ _
    by_cases hres : WINDOWS_RESERVED.contains (String.mk (baseNameOf (sanitizedCore x))) = true
    · have hr : sanitize_backup_name x = '_' :: sanitizedCore x := by
        unfold sanitize_backup_name
        rw [if_neg (by simp [List.isEmpty_iff, hne]), if_pos hres]
      have hgl : ('_' :: sanitizedCore x).getLast? = (sanitizedCore x).getLast? :=
        getLast?_cons_of_ne_nil _ _ hne
      rw [hr] at h3 h4 h5 ⊢
      rw [hgl] at h3 h4 h5
      exact sanitize_fixed_underscore _ hne hclean hh3 h3 h4 h5 hlen hres
    · have hr : sanitize_backup_name x = sanitizedCore x := by
        unfold sanitize_backup_name
        rw [if_neg (by simp [List.isEmpty_iff, hne]), if_neg hres]
      rw [hr] at h1 h2 h3 h4 h5 ⊢
      rw [sanitize_fixed _ hne hclean h1 h2 hh3 h3 h4 h5 hlen, if_neg hres]

/-- Claim C7 fails on the code: on the input string `a._` (a valid file
name), one pass of `sanitize_backup_name` yields `a.` (the trailing
underscore is trimmed, exposing a trailing dot), and a second pass yields
`a` — so the sanitizer is not idempotent. -/
theorem claim_C7_counterexample :
    sanitizeStr (sanitizeStr "a._") ≠ sanitizeStr "a._" := by decide

/-- Claim C7 (amended): the backup-name sanitizer is idempotent on every
input whose sanitized form does not start with a dot or a space and does
not end with a dot, a space or an underscore.  (Trimming underscores or
truncating to 255 characters can expose such a boundary character, and a
second pass then removes it, as the counterexample `a._` shows.) -/
theorem claim_C7_theorem (x : String)
    (h1 : (sanitizeStr x).data.head? ≠ some '.')
    (h2 : (sanitizeStr x).data.head? ≠ some ' ')
    (h3 : (sanitizeStr x).data.getLast? ≠ some '.')
    (h4 : (sanitizeStr x).data.getLast? ≠ some ' ')
    (h5 : (sanitizeStr x).data.getLast? ≠ some '_') :
    sanitizeStr (sanitizeStr x) = sanitizeStr x := by
  unfold sanitizeStr at *
  simp only [show ∀ l : List Char, (String.mk l).data = l from fun _ => rfl] at *
  rw [sanitize_backup_name_idem x.data h1 h2 h3 h4 h5]

/-- Witness for claim C7's amended theorem at the concrete input
`my_folder`. -/
theorem claim_C7_witness :
    sanitizeStr (sanitizeStr "my_folder") = sanitizeStr "my_folder" :=
  claim_C7_theorem "my_folder" (by decide) (by decide) (by decide) (by decide) (by decide)

/-! ## Schedules

Embeds `Schedule` and `Schedule::next_run_duration`
(`src/src/config/models.rs`, lines 93-199).  Durations and instants are
in nanoseconds; local time is modelled as a uniform timeline (time-zone
transitions are outside the model).  A `none` result models the panic of
`.unwrap()` / `.expect(..)` on the `None` that `and_hms_opt` returns for
an out-of-range hour or minute.
-/

def NANOS_PER_SEC : Nat := 1000000000

def NANOS_PER_DAY : Nat := 86400 * NANOS_PER_SEC

/-- Embeds `Schedule` (`src/src/config/models.rs`, lines 93-119): the
fields are `u32` values with no further range constraint. -/
inductive Schedule
  | interval (seconds : Nat)
  | daily (hour minute : Nat)
  | weekly (day hour minute : Nat)
deriving DecidableEq, Repr

/-- A local wall-clock instant: weekday (1 = Monday .. 7 = Sunday, as
`num_days_from_monday + 1`), nanoseconds since local midnight, and the
instant on the absolute timeline. -/
structure LocalInstant where
  weekday : Nat
  nanoOfDay : Nat
  absNano : Int
deriving DecidableEq, Repr

/-- The nanosecond-of-day of the naive time `HH:MM:00`. -/
def hmNanos (hour minute : Nat) : Nat := (hour * 3600 + minute * 60) * NANOS_PER_SEC

/-- Embeds chrono's `now.hour()`. -/
def nowHour (now : LocalInstant) : Nat := now.nanoOfDay / (3600 * NANOS_PER_SEC)

/-- Embeds chrono's `now.minute()`. -/
def nowMinute (now : LocalInstant) : Nat := now.nanoOfDay % (3600 * NANOS_PER_SEC) / (60 * NANOS_PER_SEC)

/-- Embeds `Schedule::calculate_next_daily` (`src/src/config/models.rs`,
lines 147-164).  `now.time() < today_scheduled.time()` selects today's
`HH:MM`, otherwise tomorrow's; `_lastRun` is ignored by the code. -/
def calculate_next_daily (hour minute : Nat) (_lastRun : Option Int) (now : LocalInstant) :
    Option Int :=
  if hour ≤ 23 ∧ minute ≤ 59 then
    let sched : Int := hmNanos hour minute
    some (if (now.nanoOfDay : Int) < sched then sched - (now.nanoOfDay : Int)
          else sched + (NANOS_PER_DAY : Int) - (now.nanoOfDay : Int))
  else none

/-- Embeds `Schedule::calculate_next_weekly` (`src/src/config/models.rs`,
lines 166-199). -/
def calculate_next_weekly (day hour minute : Nat) (_lastRun : Option Int) (now : LocalInstant) :
    Option Int :=
  let current_weekday := now.weekday
  let days_until : Nat :=
    if current_weekday < day then day - current_weekday
    else if current_weekday = day then
      if nowHour now > hour ∨ (nowHour now = hour ∧ nowMinute now ≥ minute) then 7 else 0
    else 7 - (current_weekday - day)
  if hour ≤ 23 ∧ minute ≤ 59 then
    some ((days_until : Int) * (NANOS_PER_DAY : Int) + (hmNanos hour minute : Int)
      - (now.nanoOfDay : Int))
  else none

/-- Embeds `Schedule::next_run_duration` (`src/src/config/models.rs`,
lines 123-145). -/
def next_run_duration (s : Schedule) (lastRun : Option Int) (now : LocalInstant) : Option Int :=
  match s with
  | .interval seconds =>
    match lastRun with
    | some last =>
      let elapsed := now.absNano - last
      let ival : Int := (seconds : Int) * (NANOS_PER_SEC : Int)
      some (if elapsed ≥ ival then 0 else ival - elapsed)
    | none => some 0
  | .daily hour minute => calculate_next_daily hour minute lastRun now
  | .weekly day hour minute => calculate_next_weekly day hour minute lastRun now

/-- A local instant at `H:M:S` on an arbitrary day (used for the concrete
scenarios of the spec). -/
def localClock (h m s : Nat) : LocalInstant :=
  ⟨1, (h * 3600 + m * 60 + s) * NANOS_PER_SEC, 0⟩

/-! ### Minimal JSON model for the serde-derived deserializer -/

/-- A minimal JSON value. -/
inductive Json
  | num (n : Nat)
  | str (s : String)
  | obj (fields : List (String × Json))

/-- Models the deserializer derived for `Schedule` by
`#[derive(Deserialize)]` with `#[serde(tag = "type", rename_all =
"lowercase")]` (`src/src/config/models.rs`, lines 93-119): fields are
read as `u64`/`u32` integers with only the integer-width check — no
range validation of `day`, `hour` or `minute`. -/
def deserializeSchedule (j : Json) : Option Schedule :=
  match j with
  | .obj fields =>
    match fields.lookup "type" with
    | some (.str t) =>
      if t = "interval" then
        match fields.lookup "seconds" with
        | some (.num n) => if n < 2 ^ 64 then some (.interval n) else none
        | _ => none
      else if t = "daily" then
        match fields.lookup "hour", fields.lookup "minute" with
        | some (.num h), some (.num m) =>
          if h < 2 ^ 32 ∧ m < 2 ^ 32 then some (.daily h m) else none
        | _, _ => none
      else if t = "weekly" then
        match fields.lookup "day", fields.lookup "hour", fields.lookup "minute" with
        | some (.num d), some (.num h), some (.num m) =>
          if d < 2 ^ 32 ∧ h < 2 ^ 32 ∧ m < 2 ^ 32 then some (.weekly d h m) else none
        | _, _, _ => none
      else none
    | _ => none
  | _ => none

/-- The JSON object `\x7b"type":"daily","hour":h,"minute":m\x7d`. -/
def dailyJson (h m : Nat) : Json :=
  .obj [("type", .str "daily"), ("hour", .num h), ("minute", .num m)]

/-- The JSON object for a weekly schedule. -/
def weeklyJson (d h m : Nat) : Json :=
  .obj [("type", .str "weekly"), ("day", .num d), ("hour", .num h), ("minute", .num m)]

/-- Claim C8: for a valid `Daily` schedule, `next_run_duration` ignores
`last_run`; when the current local time is before `HH:MM` it returns the
duration until today's `HH:MM`, otherwise the duration until tomorrow's
`HH:MM`.  In particular at 01:59:00 `Daily(2,0)` yields one minute and at
02:00:01 it yields 23 h 59 m 59 s. -/
theorem claim_C8_theorem (hour minute : Nat) (lr lr2 : Option Int) (now : LocalInstant)
    (hh : hour ≤ 23) (hm : minute ≤ 59) :
    next_run_duration (.daily hour minute) lr now
        = next_run_duration (.daily hour minute) lr2 now ∧
    ((now.nanoOfDay : Int) < (hmNanos hour minute : Int) →
      next_run_duration (.daily hour minute) lr now
        = some ((hmNanos hour minute : Int) - (now.nanoOfDay : Int))) ∧
    ((hmNanos hour minute : Int) ≤ (now.nanoOfDay : Int) →
      next_run_duration (.daily hour minute) lr now
        = some ((hmNanos hour minute : Int) + (NANOS_PER_DAY : Int) - (now.nanoOfDay : Int))) ∧
    next_run_duration (.daily 2 0) none (localClock 1 59 0)
        = some (60 * (NANOS_PER_SEC : Int)) ∧
    next_run_duration (.daily 2 0) none (localClock 2 0 1)
        = some ((23 * 3600 + 59 * 60 + 59) * (NANOS_PER_SEC : Int)) := by
  refine ⟨rfl, ?_, ?_, by decide, by decide⟩
  · intro hlt
    simp only [next_run_duration, calculate_next_daily, if_pos (And.intro hh hm)]
    rw [if_pos hlt]
  · intro hge
    simp only [next_run_duration, calculate_next_daily, if_pos (And.intro hh hm)]
    rw [if_neg (by omega)]

/-- Witness for claim C8 at `Daily(2,0)`, local time 01:59:00. -/
theorem claim_C8_witness :
    next_run_duration (.daily 2 0) none (localClock 1 59 0)
      = some (60 * (NANOS_PER_SEC : Int)) :=
  (claim_C8_theorem 2 0 none (some 5) (localClock 1 59 0) (by decide) (by decide)).2.2.2.1

/-- Claim C10: `next_run_duration` is total only for `hour ≤ 23` and
`minute ≤ 59`: with `hour ≥ 24` or `minute ≥ 60` the `Daily` and `Weekly`
computations panic (`none` in the model), while the derived deserializer
accepts any `u32` values for these fields. -/
theorem claim_C10_theorem (h m d : Nat) (hh : h < 2 ^ 32) (hm : m < 2 ^ 32) (hd : d < 2 ^ 32)
    (hbad : 24 ≤ h ∨ 60 ≤ m) (lr : Option Int) (now : LocalInstant) :
    deserializeSchedule (dailyJson h m) = some (.daily h m) ∧
    deserializeSchedule (weeklyJson d h m) = some (.weekly d h m) ∧
    next_run_duration (.daily h m) lr now = none ∧
    next_run_duration (.weekly d h m) lr now = none := by
  refine ⟨?_, ?_, ?_, ?_⟩
  · show (if h < 2 ^ 32 ∧ m < 2 ^ 32 then some (Schedule.daily h m) else none)
      = some (Schedule.daily h m)
    rw [if_pos ⟨hh, hm⟩]
  · show (if d < 2 ^ 32 ∧ h < 2 ^ 32 ∧ m < 2 ^ 32 then some (Schedule.weekly d h m) else none)
      = some (Schedule.weekly d h m)
    rw [if_pos ⟨hd, hh, hm⟩]
  · simp only [next_run_duration, calculate_next_daily]
    rw [if_neg (by omega)]
  · simp only [next_run_duration, calculate_next_weekly]
    rw [if_neg (by omega)]

/-- Witness for claim C10 at `hour = 24`, `minute = 0`. -/
theorem claim_C10_witness :
    deserializeSchedule (dailyJson 24 0) = some (.daily 24 0) ∧
    deserializeSchedule (weeklyJson 1 24 0) = some (.weekly 1 24 0) ∧
    next_run_duration (.daily 24 0) none (localClock 0 0 0) = none ∧
    next_run_duration (.weekly 1 24 0) none (localClock 0 0 0) = none :=
  claim_C10_theorem 24 0 1 (by norm_num) (by norm_num) (by norm_num) (by norm_num) none
    (localClock 0 0 0)

/-! ## State data model

Embeds `src/src/state/models.rs`.  Paths are modelled as strings and
instants as integers (nanoseconds).
-/

/-- Embeds `BackupMetadata` (`src/src/state/models.rs`, lines 116-143). -/
structure BackupMetadata where
  backup_name : String
  backup_path : String
  started_at : Int
  completed_at : Option Int
  bytes_copied : Nat
  files_copied : Nat
  files_skipped : Nat
  is_complete : Bool
  errors : List String
deriving DecidableEq, Repr

/-- Embeds `BackupMetadata::new`. -/
def BackupMetadata.new (backup_name backup_path : String) (now : Int) : BackupMetadata :=
  ⟨backup_name, backup_path, now, none, 0, 0, 0, false, []⟩

/-- Embeds `BackupMetadata::mark_complete`. -/
def BackupMetadata.mark_complete (m : BackupMetadata) (now : Int) : BackupMetadata :=
  { m with completed_at := some now, is_complete := true }

/-- Embeds `JobStatus` (`src/src/state/models.rs`, lines 55-69). -/
inductive JobStatus
  | Idle
  | Running (started_at : Int)
  | Failed (error : String) (timestamp : Int)
deriving DecidableEq, Repr

/-- Embeds `JobState` (`src/src/state/models.rs`, lines 73-97). -/
structure JobState where
  id : String
  source : String
  target : String
  status : JobStatus
  last_run : Option Int
  next_run : Option Int
  last_backup : Option BackupMetadata
  active_backup : Option BackupMetadata
deriving DecidableEq, Repr

/-- Embeds `JobState::new` (`src/src/state/models.rs`, lines 100-111). -/
def JobState.new (id source target : String) : JobState :=
  ⟨id, source, target, .Idle, none, none, none, none⟩

/-- Embeds `STATE_SCHEMA_VERSION`. -/
def STATE_SCHEMA_VERSION : Nat := 1

/-- Embeds `BackupState` (`src/src/state/models.rs`, lines 10-19). -/
structure BackupState where
  version : Nat
  jobs : List JobState
  last_updated : Int
deriving DecidableEq, Repr

/-- Embeds `BackupState::new`. -/
def BackupState.new (now : Int) : BackupState :=
  ⟨STATE_SCHEMA_VERSION, [], now⟩

/-- Embeds `BackupState::get_job`: first record with the given id. -/
def BackupState.get_job (s : BackupState) (id : String) : Option JobState :=
  s.jobs.find? (fun j => j.id == id)

/-- Replaces the first record with a matching id (the `iter_mut().find`
branch of `upsert_job`). -/
def replaceFirstJob : List JobState → JobState → List JobState
  | [], _ => []
  | j :: rest, job => if j.id == job.id then job :: rest else j :: replaceFirstJob rest job

/-- Embeds `BackupState::upsert_job` (`src/src/state/models.rs`, lines
32-39): replace the first record with the same id, or append; stamps
`last_updated`. -/
def BackupState.upsert_job (s : BackupState) (job : JobState) (now : Int) : BackupState :=
  if s.jobs.any (fun j => j.id == job.id) then
    { s with jobs := replaceFirstJob s.jobs job, last_updated := now }
  else
    { s with jobs := s.jobs ++ [job], last_updated := now }

/-! ## State manager: atomic persistence

Embeds `StateManager::save` / `save_state_atomic`
(`src/src/state/manager.rs`, lines 57-101).  The file system is the pair
of contents at `state_path` and at the `.tmp` sibling; a `SaveOutcome`
oracle chooses at which step, if any, the operation fails.
-/

/-- Stand-in for `serde_json::to_string_pretty` over the embedded state:
any concrete rendering works for the persistence claims. -/
def serializeState (s : BackupState) : String :=
  toString (repr s)

/-- Contents of the two files the save protocol touches (`none` =
absent). -/
structure StateFile where
  main : Option String
  tmp : Option String
deriving DecidableEq, Repr

/-- Where a save attempt fails, if anywhere.  `tmpWriteFailed leftover`
models `tokio::fs::write` failing and leaving `leftover` (nothing, or a
prefix of the data) in the temp file; `renameFailed` models an atomic
rename that fails without touching the destination. -/
inductive SaveOutcome
  | serializeFailed
  | tmpWriteFailed (leftover : Option String)
  | tmpOpenFailed
  | fsyncFailed
  | renameFailed
  | success
deriving DecidableEq, Repr

/-- Embeds `StateManager::save_state_atomic`
(`src/src/state/manager.rs`, lines 72-101): serialize, write the temp
file, fsync it, then atomically rename it over `state_path`.  Returns
the resulting file system and whether the save returned `Ok`. -/
def save_state_atomic (json : String) (fs : StateFile) : SaveOutcome → StateFile × Bool
  | .serializeFailed => (fs, false)
  | .tmpWriteFailed leftover => ({ fs with tmp := leftover }, false)
  | .tmpOpenFailed => ({ fs with tmp := some json }, false)
  | .fsyncFailed => ({ fs with tmp := some json }, false)
  | .renameFailed => ({ fs with tmp := some json }, false)
  | .success => ({ main := some json, tmp := none }, true)

/-- Embeds `StateManager::save` (`src/src/state/manager.rs`, lines
57-69): snapshot the in-memory state and persist it atomically. -/
def StateManager.save (st : BackupState) (fs : StateFile) (o : SaveOutcome) : StateFile × Bool :=
  save_state_atomic (serializeState st) fs o

/-- Claim C1: if a save fails at any step (serialization, temp write,
fsync — and even the rename itself), the file at `state_path` is
unchanged; after any save the file holds either the previous document or
the full serialization of the new one, never a truncated intermediate. -/
theorem claim_C1_theorem (st : BackupState) (fs : StateFile) (o : SaveOutcome) :
    ((StateManager.save st fs o).2 = false → (StateManager.save st fs o).1.main = fs.main) ∧
    ((StateManager.save st fs o).1.main = fs.main ∨
      (StateManager.save st fs o).1.main = some (serializeState st)) := by
  cases o <;> simp [StateManager.save, save_state_atomic]

/-- Witness for claim C1: a save of a fresh document over an existing
file, failing at the fsync step. -/
theorem claim_C1_witness :
    ((StateManager.save (BackupState.new 0) ⟨some "old", none⟩ .fsyncFailed).2 = false →
      (StateManager.save (BackupState.new 0) ⟨some "old", none⟩ .fsyncFailed).1.main
        = some "old") ∧
    ((StateManager.save (BackupState.new 0) ⟨some "old", none⟩ .fsyncFailed).1.main
        = some "old" ∨
      (StateManager.save (BackupState.new 0) ⟨some "old", none⟩ .fsyncFailed).1.main
        = some (serializeState (BackupState.new 0))) :=
  claim_C1_theorem (BackupState.new 0) ⟨some "old", none⟩ .fsyncFailed

/-! ## Scheduler: duplicate-id validation and job initialization

Embeds `Scheduler::initialize_jobs` and
`Scheduler::validate_no_duplicate_job_ids`
(`src/src/scheduler/engine.rs`, lines 76-126).
-/

/-- Embeds `BackupJob` (`src/src/config/models.rs`, lines 74-90). -/
structure BackupJob where
  id : String
  source : String
  target : String
  schedule : Schedule
  description : String
deriving DecidableEq, Repr

/-- The apostrophe character, quoted by its code point. -/
def apos : String := String.mk [Char.ofNat 39]

/-- One line of the duplicate-id error:
`  - Job ID (id) appears at positions (i) and (j)` (the id is quoted
with apostrophes, as in the Rust format string). -/
def dupLine (id : String) (i j : Nat) : String :=
  "  - Job ID " ++ apos ++ id ++ apos ++ " appears at positions "
    ++ Nat.repr i ++ " and " ++ Nat.repr j ++ "\n"

/-- Concatenation of the per-duplicate lines, in order. -/
def joinLines : List (String × Nat × Nat) → String
  | [] => ""
  | d :: rest => dupLine d.1 d.2.1 d.2.2 ++ joinLines rest

/-- The error message `validate_no_duplicate_job_ids` builds
(`src/src/scheduler/engine.rs`, lines 112-121). -/
def duplicateErrorMsg (dups : List (String × Nat × Nat)) : String :=
  "Duplicate job IDs detected in configuration:\n"
    ++ joinLines dups
    ++ "\nEach job must have a unique ID. Please fix the configuration."

/-- The scan of `validate_no_duplicate_job_ids` (lines 104-110): walk the
jobs with the map of first-seen indices (an association list here — each
id is inserted once, so lookup agrees with the `HashMap`), collecting
`(id, first index, repeat index)` for every repeated occurrence. -/
def findDupsAux : List BackupJob → List (String × Nat) → Nat → List (String × Nat × Nat)
  | [], _, _ => []
  | j :: rest, seen, idx =>
    match seen.lookup j.id with
    | some first => (j.id, first, idx) :: findDupsAux rest seen (idx + 1)
    | none => findDupsAux rest ((j.id, idx) :: seen) (idx + 1)

/-- The list of duplicates reported for a job list. -/
def findDups (jobs : List BackupJob) : List (String × Nat × Nat) :=
  findDupsAux jobs [] 0

/-- Embeds `Scheduler::validate_no_duplicate_job_ids`
(`src/src/scheduler/engine.rs`, lines 100-126). -/
def validate_no_duplicate_job_ids (jobs : List BackupJob) : Except String Unit :=
  let dups := findDups jobs
  if dups.isEmpty then .ok () else .error (duplicateErrorMsg dups)

/-- Embeds `Scheduler::initialize_jobs` (`src/src/scheduler/engine.rs`,
lines 76-97): validate ids, insert a fresh `Idle` record for each id not
yet in state, then persist through the state manager. -/
def initialize_jobs (jobs : List BackupJob) (st : BackupState) (fs : StateFile)
    (now : Int) (o : SaveOutcome) : BackupState × StateFile × Except String Unit :=
  match validate_no_duplicate_job_ids jobs with
  | .error e => (st, fs, .error e)
  | .ok _ =>
    let st' := jobs.foldl (fun acc job =>
      match acc.get_job job.id with
      | some _ => acc
      | none => acc.upsert_job (JobState.new job.id job.source job.target) now) st
    let saved := StateManager.save st' fs o
    (st', saved.1, if saved.2 then .ok () else .error "save failed")

/-- Each reported duplicate's line occurs inside the joined lines. -/
theorem dupLine_subSeg_joinLines (dups : List (String × Nat × Nat)) :
    ∀ p ∈ dups, SubSeg (dupLine p.1 p.2.1 p.2.2).data (joinLines dups).data := by
  induction dups with
  | nil => intro p hp; simp at hp
  | cons d rest ih =>
    intro p hp
    rcases List.mem_cons.mp hp with rfl | hp
    · exact SubSeg.of_append_left _ (SubSeg.refl _)
    · exact SubSeg.of_append_right _ (ih p hp)

/-- Each reported duplicate's line occurs inside the full error
message. -/
theorem dupLine_subSeg_msg (dups : List (String × Nat × Nat)) :
    ∀ p ∈ dups, SubSeg (dupLine p.1 p.2.1 p.2.2).data (duplicateErrorMsg dups).data := by
  intro p hp
  unfold duplicateErrorMsg
  show SubSeg _ ("Duplicate job IDs detected in configuration:\n".data
    ++ ((joinLines dups).data
      ++ "\nEach job must have a unique ID. Please fix the configuration.".data))
  exact SubSeg.of_append_right _ (SubSeg.of_append_left _ (dupLine_subSeg_joinLines dups p hp))

/-- Once an id is recorded in `seen` with first index `f`, every later
occurrence of that id produces the entry `(id, f, absolute index)`. -/
theorem findDupsAux_mem_of_seen (id : String) (f : Nat) :
    ∀ (l : List BackupJob) (seen : List (String × Nat)) (base : Nat)
      (j : Nat) (hj : j < l.length),
      (l.get ⟨j, hj⟩).id = id → seen.lookup id = some f →
      (id, f, base + j) ∈ findDupsAux l seen base := by
  intro l
  induction l with
  | nil => intro seen base j hj; exact absurd hj (by simp)
  | cons x rest ih =>
    intro seen base j hj hid hseen
    cases j with
    | zero =>
      simp only [List.get] at hid
      subst hid
      unfold findDupsAux
      rw [hseen]
      exact List.mem_cons_self _ _
    | succ j' =>
      have hj' : j' < rest.length := Nat.lt_of_succ_lt_succ hj
      have hid' : (rest.get ⟨j', hj'⟩).id = id := hid
      unfold findDupsAux
      cases hl : seen.lookup x.id with
      | some f' =>
        have : (id, f, base + 1 + j') ∈ findDupsAux rest seen (base + 1) :=
          ih seen (base + 1) j' hj' hid' hseen
        rw [show base + (j' + 1) = base + 1 + j' by omega]
        exact List.mem_cons_of_mem _ this
      | none =>
        have hne : x.id ≠ id := by
          intro hx
          rw [hx, hseen] at hl
          exact Option.noConfusion hl
        have hseen' : ((x.id, base) :: seen).lookup id = some f := by
          simp only [List.lookup]
          rw [show (id == x.id) = false from beq_eq_false_iff_ne.mpr (Ne.symm hne)]
          exact hseen
        have : (id, f, base + 1 + j') ∈ findDupsAux rest ((x.id, base) :: seen) (base + 1) :=
          ih ((x.id, base) :: seen) (base + 1) j' hj' hid' hseen'
        rw [show base + (j' + 1) = base + 1 + j' by omega]
        exact this

/-- If an id occurs first at relative index `i` within `l` and was not
seen before, every repeat at relative index `j > i` is reported with the
pair of absolute positions `(base + i, base + j)`. -/
theorem findDupsAux_mem_first (id : String) :
    ∀ (l : List BackupJob) (seen : List (String × Nat)) (base : Nat)
      (i j : Nat) (hij : i < j) (hj : j < l.length),
      (l.get ⟨i, Nat.lt_trans hij hj⟩).id = id → (l.get ⟨j, hj⟩).id = id →
      (∀ k (hk : k < i), (l.get ⟨k, by omega⟩).id ≠ id) →
      seen.lookup id = none →
      (id, base + i, base + j) ∈ findDupsAux l seen base := by
  intro l
  induction l with
  | nil => intro seen base i j hij hj; exact absurd hj (by simp)
  | cons x rest ih =>
    intro seen base i j hij hj hi hjid hfirst hseen
    cases j with
    | zero => exact absurd hij (by omega)
    | succ j' =>
      have hj' : j' < rest.length := Nat.lt_of_succ_lt_succ hj
      cases i with
      | zero =>
        have hx : x.id = id := hi
        unfold findDupsAux
        rw [show seen.lookup x.id = none by rw [hx]; exact hseen]
        have hseen' : ((x.id, base) :: seen).lookup id = some base := by
          simp only [List.lookup]
          rw [show (id == x.id) = true from beq_iff_eq.mpr hx.symm]
        have := findDupsAux_mem_of_seen id base rest ((x.id, base) :: seen) (base + 1)
          j' hj' hjid hseen'
        rw [show base + (j' + 1) = base + 1 + j' by omega, show base + 0 = base by omega]
        exact this
      | succ i' =>
        have hxne : x.id ≠ id := hfirst 0 (Nat.succ_pos i')
        have hi' : i' < rest.length := by
          have : i' + 1 < rest.length + 1 := by simpa using Nat.lt_trans hij hj
          omega
        have hrest_i : (rest.get ⟨i', hi'⟩).id = id := hi
        have hfirst' : ∀ k (hk : k < i'), (rest.get ⟨k, by omega⟩).id ≠ id := by
          intro k hk
          exact hfirst (k + 1) (by omega)
        unfold findDupsAux
        cases hl : seen.lookup x.id with
        | some f' =>
          have := ih seen (base + 1) i' j' (by omega) hj' hrest_i hjid hfirst' hseen
          rw [show base + (i' + 1) = base + 1 + i' by omega,
            show base + (j' + 1) = base + 1 + j' by omega]
          exact List.mem_cons_of_mem _ this
        | none =>
          have hseen' : ((x.id, base) :: seen).lookup id = none := by
            simp only [List.lookup]
            rw [show (id == x.id) = false from beq_eq_false_iff_ne.mpr (Ne.symm hxne)]
            exact hseen
          have := ih ((x.id, base) :: seen) (base + 1) i' j' (by omega) hj' hrest_i hjid
            hfirst' hseen'
          rw [show base + (i' + 1) = base + 1 + i' by omega,
            show base + (j' + 1) = base + 1 + j' by omega]
          exact this

/-- Specialization to a whole job list: a first occurrence at `i` and a
repeat at `j` are reported as `(id, i, j)`. -/
theorem findDups_mem (jobs : List BackupJob) (i j : Nat) (hij : i < j)
    (hj : j < jobs.length)
    (hi : (jobs.get ⟨i, Nat.lt_trans hij hj⟩).id = (jobs.get ⟨j, hj⟩).id)
    (hfirst : ∀ k (hk : k < i), (jobs.get ⟨k, by omega⟩).id ≠ (jobs.get ⟨j, hj⟩).id) :
    ((jobs.get ⟨j, hj⟩).id, i, j) ∈ findDups jobs := by
  have := findDupsAux_mem_first (jobs.get ⟨j, hj⟩).id jobs [] 0 i j hij hj hi rfl hfirst rfl
  simpa using this

/-- With a duplicated id, `initialize_jobs` stops at validation: it
returns the duplicate error and leaves state and disk untouched. -/
theorem initialize_jobs_dup (jobs : List BackupJob) (st : BackupState) (fs : StateFile)
    (now : Int) (o : SaveOutcome) (hdup : findDups jobs ≠ []) :
    initialize_jobs jobs st fs now o
      = (st, fs, .error (duplicateErrorMsg (findDups jobs))) := by
  have hval : validate_no_duplicate_job_ids jobs
      = .error (duplicateErrorMsg (findDups jobs)) := by
    unfold validate_no_duplicate_job_ids
    rw [if_neg (by simp [List.isEmpty_iff, hdup])]
  unfold initialize_jobs
  rw [hval]

/-- Claim C2: a job list with a duplicated id makes `initialize_jobs`
return the duplicate error without touching the in-memory or the on-disk
state, and the error message contains one line per reported duplicate;
in particular, for every id whose first occurrence is at position `i`
and which repeats at position `j`, the message contains the line naming
that id with positions `i` and `j`. -/
theorem claim_C2_theorem (jobs : List BackupJob) (st : BackupState) (fs : StateFile)
    (now : Int) (o : SaveOutcome) (hdup : findDups jobs ≠ []) :
    initialize_jobs jobs st fs now o
        = (st, fs, .error (duplicateErrorMsg (findDups jobs))) ∧
    (∀ p ∈ findDups jobs,
      SubSeg (dupLine p.1 p.2.1 p.2.2).data (duplicateErrorMsg (findDups jobs)).data) ∧
    (∀ i j (hij : i < j) (hj : j < jobs.length),
      (jobs.get ⟨i, Nat.lt_trans hij hj⟩).id = (jobs.get ⟨j, hj⟩).id →
      (∀ k (hk : k < i), (jobs.get ⟨k, by omega⟩).id ≠ (jobs.get ⟨j, hj⟩).id) →
      SubSeg (dupLine (jobs.get ⟨j, hj⟩).id i j).data
        (duplicateErrorMsg (findDups jobs)).data) := by
  refine ⟨initialize_jobs_dup jobs st fs now o hdup, dupLine_subSeg_msg _, ?_⟩
  intro i j hij hj hi hfirst
  have hmem := findDups_mem jobs i j hij hj hi hfirst
  exact dupLine_subSeg_msg (findDups jobs) ((jobs.get ⟨j, hj⟩).id, i, j) hmem

/-- The duplicate-id example of the spec: `[job1, job2, job1]`. -/
def dupJobsExample : List BackupJob :=
  [⟨"job1", "s1", "t1", .interval 60, ""⟩,
   ⟨"job2", "s2", "t2", .interval 60, ""⟩,
   ⟨"job1", "s3", "t3", .interval 60, ""⟩]

/-- Witness for claim C2: initializing `[job1, job2, job1]` errors, the
state and disk are unchanged, and the message names `job1` with
positions 0 and 2. -/
theorem claim_C2_witness :
    initialize_jobs dupJobsExample (BackupState.new 0) ⟨none, none⟩ 0 .success
        = (BackupState.new 0, ⟨none, none⟩,
           .error (duplicateErrorMsg (findDups dupJobsExample))) ∧
    SubSeg (dupLine "job1" 0 2).data (duplicateErrorMsg (findDups dupJobsExample)).data := by
  have h := claim_C2_theorem dupJobsExample (BackupState.new 0) ⟨none, none⟩ 0 .success
    (by decide)
  exact ⟨h.1, h.2.2 0 2 (by decide) (by decide) (by decide) (fun k hk => by omega)⟩

/-! ## Executor: job-state transitions and `active_backup`

Embeds every mutation applied to a `JobState` record through
`StateManager::update_job_state`, from `JobExecutor::execute_job`
(`src/src/scheduler/executor.rs`, lines 51-116),
`Scheduler::calculate_next_runs` (`src/src/scheduler/engine.rs`, lines
37-40), `ServiceDaemon::reset_failed_jobs` and
`ServiceDaemon::handle_config_change` (`src/src/service/daemon.rs`).
-/

/-- One mutation of a job-state record, as passed to
`update_job_state`. -/
inductive JobStep : JobState → JobState → Prop
  /-- `execute_job` start: status `Running`, stamp source/target
  (`executor.rs`, lines 59-65). -/
  | execRunning (j : JobState) (src tgt : String) (t : Int) :
      JobStep j { j with status := .Running t, source := src, target := tgt }
  /-- `execute_job` success (`executor.rs`, lines 78-83). -/
  | execSuccess (j : JobState) (t : Int) (m : BackupMetadata) :
      JobStep j
        { j with status := .Idle, last_run := some t, last_backup := some m, active_backup := none }
  /-- `execute_job` failure (`executor.rs`, lines 105-111). -/
  | execFailure (j : JobState) (e : String) (t : Int) :
      JobStep j { j with status := .Failed e t, active_backup := none }
  /-- `calculate_next_runs` (`engine.rs`, lines 37-40). -/
  | schedule (j : JobState) (t : Int) :
      JobStep j { j with next_run := some t }
  /-- `reset_failed_jobs` (`daemon.rs`, lines 144-149). -/
  | resetFailed (j : JobState) :
      JobStep j { j with status := .Idle }
  /-- hot-reload path change while running (`daemon.rs`, lines 340-347
  and 370-377). -/
  | configPathRunning (j : JobState) (src tgt e : String) (t : Int) :
      JobStep j { j with status := .Failed e t, source := src, target := tgt }
  /-- hot-reload path change while idle (`daemon.rs`, lines 351-354 and
  381-384). -/
  | configPathIdle (j : JobState) (src tgt : String) :
      JobStep j { j with source := src, target := tgt }

/-- Job-state records reachable from initialization
(`Scheduler::initialize_jobs` inserts `JobState::new ..`) through the
update operations. -/
inductive ReachableJob : JobState → Prop
  | init (id source target : String) : ReachableJob (JobState.new id source target)
  | step (j j' : JobState) : ReachableJob j → JobStep j j' → ReachableJob j'

/-- Whether a status is `Running`. -/
def isRunningStatus : JobStatus → Bool
  | .Running _ => true
  | _ => false

/-- The state of a fresh job right after `execute_job` marks it
`Running`. -/
def runningExample : JobState :=
  { JobState.new "job1" "s" "t" with status := .Running 0, source := "s", target := "t" }

/-- Claim C5 fails on the code: the state reached by starting a fresh
job (`execute_job`'s `Running` transition) has status `Running` but
`active_backup = none` — the executor never populates `active_backup`. -/
theorem claim_C5_counterexample :
    ReachableJob runningExample ∧
    isRunningStatus runningExample.status = true ∧
    runningExample.active_backup = none :=
  ⟨.step _ _ (.init "job1" "s" "t") (.execRunning _ "s" "t" 0), rfl, rfl⟩

/-- Claim C5 (amended): in every reachable job-state record,
`active_backup` is `none` — no operation ever sets it, so a `Running`
record never has `active_backup` set (the claimed invariant
`Running ⇒ active_backup set` fails). -/
theorem claim_C5_theorem (j : JobState) (h : ReachableJob j) : j.active_backup = none := by
  induction h with
  | init id source target => rfl
  | step a b hr hs ih => cases hs <;> first | exact ih | rfl

/-- Witness for claim C5's amended theorem at a freshly initialized
job. -/
theorem claim_C5_witness : (JobState.new "a" "s" "t").active_backup = none :=
  claim_C5_theorem _ (.init "a" "s" "t")

/-! ## Validation

Embeds `validate_backup_job` (`src/src/core/validation.rs`, lines
11-81).  The file-system answers each check consults are collected in a
`ValidationEnv` oracle.
-/

/-- Result of the free-disk-space comparison (`check_disk_space`):
enough space, not enough (a warning), or the query failed (also only a
warning). -/
inductive DiskCheck
  | enough
  | tight
  | failed (e : String)
deriving DecidableEq, Repr

/-- The file-system facts `validate_backup_job` consults, in the order
it consults them. -/
structure ValidationEnv where
  sourceExists : Bool
  sourceIsDir : Bool
  sourceEqTarget : Bool
  sourceReadable : Bool
  targetExists : Bool
  targetIsDir : Bool
  createTargetOk : Bool
  writeTestOk : Bool
  targetInsideSource : Bool
  diskCheck : DiskCheck
  longPaths : Bool
deriving DecidableEq, Repr

/-- Embeds `ValidationResult` (`src/src/core/validation.rs`, lines
5-9). -/
structure ValidationResult where
  is_valid : Bool
  warnings : List String
deriving DecidableEq, Repr

/-- Embeds `validate_backup_job` (`src/src/core/validation.rs`, lines
11-81): each hard failure is an error (`bail!`); disk-space and
long-path findings only append warnings; the final `Ok` always carries
`is_valid: true`. -/
def validate_backup_job (env : ValidationEnv) : Except String ValidationResult :=
  if !env.sourceExists then .error "Source path does not exist"
  else if !env.sourceIsDir then .error "Source path is not a directory"
  else if env.sourceEqTarget then .error "Source and target directories cannot be the same"
  else if !env.sourceReadable then .error "Cannot read source directory"
  else if !env.targetExists && !env.createTargetOk then .error "Cannot create target directory"
  else if env.targetExists && !env.targetIsDir then
    .error "Target path exists but is not a directory"
  else if !env.writeTestOk then .error "Cannot write to target directory"
  else if env.targetInsideSource then .error "Target directory cannot be inside source directory"
  else
    let diskWarnings :=
      match env.diskCheck with
      | .enough => []
      | .tight => ["Target disk space may be insufficient"]
      | .failed e => ["Could not verify disk space: " ++ e]
    let warnings := diskWarnings
      ++ (if env.longPaths then ["Using Windows extended path support for long paths"] else [])
    .ok ⟨true, warnings⟩

/-- Every `Ok` of `validate_backup_job` carries `is_valid = true`. -/
theorem validate_ok_valid (env : ValidationEnv) (v : ValidationResult)
    (h : validate_backup_job env = .ok v) : v.is_valid = true := by
  unfold validate_backup_job at h
  repeat' split at h
  all_goals try cases h
  all_goals rfl

/-! ## Backup orchestrator

Embeds `BackupOrchestrator::execute_backup` and `mark_partial`
(`src/src/core/backup.rs`, lines 22-120).  The oracle `BackupEnv` fixes
the outcome of each file operation and of the copy; the result records
the snapshot directory entry left at the target and the value returned
to the caller.
-/

/-- Progress figures returned by the copy engine. -/
structure CopyProgress where
  bytes_copied : Nat
  files_copied : Nat
  files_skipped : Nat
deriving DecidableEq, Repr

/-- Decidable equality for `Except` results. -/
instance instDecEqExcept {e a : Type} [DecidableEq e] [DecidableEq a] :
    DecidableEq (Except e a)
  | .error x, .error y => if h : x = y then isTrue (by rw [h]) else isFalse (by simp [h])
  | .error _, .ok _ => isFalse (by simp)
  | .ok _, .error _ => isFalse (by simp)
  | .ok x, .ok y => if h : x = y then isTrue (by rw [h]) else isFalse (by simp [h])

/-- Outcomes of the file operations `execute_backup` performs. -/
structure BackupEnv where
  venv : ValidationEnv
  preexists : Bool
  removeOk : Bool
  createOk : Bool
  cancelled : Bool
  copyResult : Except String CopyProgress
  renameOk : Bool
deriving DecidableEq, Repr

/-- The distinct errors `execute_backup` can return. -/
inductive ExecError
  | validationErr (e : String)
  | validationFailedBranch
  | removeDirFailed
  | createDirFailed
  | markPartialFailed
  | cancelledBackup
  | copyFailed (e : String)
deriving DecidableEq, Repr

/-- What is left at the target and what is returned. -/
structure ExecResult where
  dirName : Option String
  outcome : Except ExecError BackupMetadata
deriving DecidableEq, Repr

/-- Embeds `BackupOrchestrator::execute_backup`
(`src/src/core/backup.rs`, lines 22-81): validate; remove a pre-existing
directory of the same name; create the directory; run the copy under the
cancellation token; on success finalize the metadata; on cancellation or
copy error call `mark_partial` with `?` (its failure replaces the
pending error) and then propagate.  `name` is the generated snapshot
name, `t` the start instant, `tdone` the completion instant. -/
def execute_backup (name : String) (t tdone : Int) (env : BackupEnv) : ExecResult :=
  let initialDir : Option String := if env.preexists then some name else none
  match validate_backup_job env.venv with
  | .error e => ⟨initialDir, .error (.validationErr e)⟩
  | .ok v =>
    if !v.is_valid then ⟨initialDir, .error .validationFailedBranch⟩
    else if env.preexists && !env.removeOk then ⟨some name, .error .removeDirFailed⟩
    else if !env.createOk then ⟨none, .error .createDirFailed⟩
    else
      let metadata := BackupMetadata.new name name t
      if env.cancelled then
        if env.renameOk then ⟨some (name ++ "_PARTIAL"), .error .cancelledBackup⟩
        else ⟨some name, .error .markPartialFailed⟩
      else
        match env.copyResult with
        | .ok p =>
          let m :=
            { metadata with bytes_copied := p.bytes_copied, files_copied := p.files_copied, files_skipped := p.files_skipped }
          ⟨some name, .ok (m.mark_complete tdone)⟩
        | .error e =>
          if env.renameOk then ⟨some (name ++ "_PARTIAL"), .error (.copyFailed e)⟩
          else ⟨some name, .error .markPartialFailed⟩

/-- Claim C9: whenever `validate_backup_job` returns `Ok`, the result
has `is_valid = true`, and consequently the `Backup validation failed`
branch of `execute_backup` (guarded by `!validation.is_valid`) is never
taken. -/
theorem claim_C9_theorem :
    (∀ (env : ValidationEnv) (v : ValidationResult),
      validate_backup_job env = .ok v → v.is_valid = true) ∧
    (∀ (name : String) (t tdone : Int) (benv : BackupEnv),
      (execute_backup name t tdone benv).outcome ≠ .error .validationFailedBranch) := by
  refine ⟨validate_ok_valid, ?_⟩
  intro name t tdone benv
  unfold execute_backup
  cases hv : validate_backup_job benv.venv with
  | error e => simp
  | ok v =>
    have hval := validate_ok_valid benv.venv v hv
    simp only [hval, Bool.not_true]
    repeat' split
    all_goals simp_all

/-- An all-good validation environment. -/
def envAllGood : ValidationEnv :=
  ⟨true, true, false, true, true, true, true, true, false, .enough, false⟩

/-- Witness for claim C9 at a concrete environment whose validation
succeeds. -/
theorem claim_C9_witness :
    (ValidationResult.mk true []).is_valid = true ∧
    (execute_backup "snap" 0 1
      ⟨envAllGood, false, true, true, false, .ok ⟨10, 2, 0⟩, true⟩).outcome
        ≠ .error .validationFailedBranch :=
  ⟨claim_C9_theorem.1 envAllGood ⟨true, []⟩ rfl,
   claim_C9_theorem.2 "snap" 0 1 ⟨envAllGood, false, true, true, false, .ok ⟨10, 2, 0⟩, true⟩⟩

/-- The primary error of a failed or cancelled copy stage. -/
def primaryError (env : BackupEnv) : ExecError :=
  if env.cancelled then .cancelledBackup
  else
    match env.copyResult with
    | .error e => .copyFailed e
    | .ok _ => .cancelledBackup

/-- Claim C4 fails on the code: with a copy failure and a failing
rename, `execute_backup` returns the `mark_partial` rename error instead
of the primary copy error, and the directory keeps its original name. -/
theorem claim_C4_counterexample :
    (execute_backup "snap" 0 1
        ⟨envAllGood, false, true, true, false, .error "disk detached", false⟩).outcome
      = .error .markPartialFailed ∧
    (execute_backup "snap" 0 1
        ⟨envAllGood, false, true, true, false, .error "disk detached", false⟩).outcome
      ≠ .error (.copyFailed "disk detached") ∧
    (execute_backup "snap" 0 1
        ⟨envAllGood, false, true, true, false, .error "disk detached", false⟩).dirName
      = some "snap" := by
  refine ⟨rfl, ?_, rfl⟩
  decide

/-- Claim C4 (amended): on every copy failure or cancellation that
reaches the copy stage, `execute_backup` attempts the `_PARTIAL` rename
before propagating; when the rename succeeds the directory is renamed to
`(name)_PARTIAL` and the primary copy/cancellation error is returned,
but when the rename fails the rename error (`Failed to mark backup as
partial`) is returned in place of the primary error and the directory
keeps its original name. -/
theorem claim_C4_theorem (name : String) (t tdone : Int) (env : BackupEnv)
    (v : ValidationResult) (hv : validate_backup_job env.venv = .ok v)
    (hrm : env.preexists = true → env.removeOk = true)
    (hcr : env.createOk = true)
    (hfail : env.cancelled = true ∨ ∃ e, env.copyResult = .error e) :
    (env.renameOk = true →
      (execute_backup name t tdone env).dirName = some (name ++ "_PARTIAL") ∧
      (execute_backup name t tdone env).outcome = .error (primaryError env)) ∧
    (env.renameOk = false →
      (execute_backup name t tdone env).dirName = some name ∧
      (execute_backup name t tdone env).outcome = .error .markPartialFailed) := by
  have hval := validate_ok_valid env.venv v hv
  have hpre : (env.preexists && !env.removeOk) = false := by
    cases hp : env.preexists with
    | false => rfl
    | true => rw [hrm hp]; rfl
  unfold execute_backup
  rw [hv]
  simp only [hval, hpre, hcr]
  cases hc : env.cancelled with
  | true =>
    simp only [primaryError, hc]
    cases hr : env.renameOk <;> simp
  | false =>
    rcases hfail with hcontra | ⟨e, hcopy⟩
    · rw [hc] at hcontra; cases hcontra
    · simp only [primaryError, hc, hcopy]
      cases hr : env.renameOk <;> simp

/-- Witness for claim C4's amended theorem: a cancellation with a
successful rename yields the `_PARTIAL` directory and the cancellation
error. -/
theorem claim_C4_witness :
    ((true : Bool) = true →
      (execute_backup "snap" 0 1
          ⟨envAllGood, false, true, true, true, .ok ⟨0, 0, 0⟩, true⟩).dirName
        = some ("snap" ++ "_PARTIAL") ∧
      (execute_backup "snap" 0 1
          ⟨envAllGood, false, true, true, true, .ok ⟨0, 0, 0⟩, true⟩).outcome
        = .error (primaryError ⟨envAllGood, false, true, true, true, .ok ⟨0, 0, 0⟩, true⟩)) ∧
    ((true : Bool) = false →
      (execute_backup "snap" 0 1
          ⟨envAllGood, false, true, true, true, .ok ⟨0, 0, 0⟩, true⟩).dirName
        = some "snap" ∧
      (execute_backup "snap" 0 1
          ⟨envAllGood, false, true, true, true, .ok ⟨0, 0, 0⟩, true⟩).outcome
        = .error .markPartialFailed) :=
  claim_C4_theorem "snap" 0 1 ⟨envAllGood, false, true, true, true, .ok ⟨0, 0, 0⟩, true⟩
    ⟨true, []⟩ rfl (fun h => by cases h) rfl (Or.inl rfl)

/-! ## Retention: `cleanup_old_backups`

Embeds `BackupOrchestrator::cleanup_old_backups`
(`src/src/core/backup.rs`, lines 206-239).  The target directory is a
list of entries (name, directory flag, optional modification time, in
nanoseconds); `remove_dir_all` succeeds in the model, matching the
claim's hypothesis that the call returns successfully.
-/

/-- An immediate child of the target directory. -/
structure DirEntry where
  name : String
  isDir : Bool
  mtime : Option Nat
deriving DecidableEq, Repr

/-- Rust's `Option` ordering (`None < Some`, then by value), as used by
`backups.sort_by(|a, b| b.1.cmp(&a.1))`. -/
def optLe : Option Nat → Option Nat → Bool
  | none, _ => true
  | some _, none => false
  | some a, some b => a ≤ b

/-- The comparator of the retention sort: newest first. -/
def newestFirst (a b : DirEntry) : Bool := optLe b.mtime a.mtime

/-- Names skipped by retention: partial backups and state files
(`name.ends_with("_PARTIAL") || name.starts_with(".keephive")`), over
the character lists. -/
def skippedName (n : String) : Bool :=
  List.isSuffixOf "_PARTIAL".data n.data || List.isPrefixOf ".keephive".data n.data

/-- The entries retention considers: not skipped by name, and a
directory. -/
def isBackupCandidate (e : DirEntry) : Bool := !skippedName e.name && e.isDir

/-- Embeds `BackupOrchestrator::cleanup_old_backups`
(`src/src/core/backup.rs`, lines 206-239): collect candidate directories
with their modification times, sort newest first (Rust `sort_by` is a
stable merge sort, as is `List.mergeSort`), and delete everything past
the first `retention_count`.  Returns the entries remaining in the
target. -/
def cleanup_old_backups (entries : List DirEntry) (retention_count : Nat) : List DirEntry :=
  let backups := entries.filter isBackupCandidate
  let sorted := backups.mergeSort newestFirst
  let doomed := sorted.drop retention_count
  entries.filter (fun e => !doomed.contains e)

theorem optLe_trans (a b c : Option Nat) (h1 : optLe a b = true) (h2 : optLe b c = true) :
    optLe a c = true := by
  cases a <;> cases b <;> cases c <;> simp_all [optLe]
  omega

theorem optLe_total (a b : Option Nat) : (optLe a b || optLe b a) = true := by
  cases a <;> cases b <;> simp_all [optLe]
  omega

theorem newestFirst_trans (a b c : DirEntry) (h1 : newestFirst a b = true)
    (h2 : newestFirst b c = true) : newestFirst a c = true :=
  optLe_trans _ _ _ h2 h1

theorem newestFirst_total (a b : DirEntry) : (newestFirst a b || newestFirst b a) = true :=
  optLe_total b.mtime a.mtime

/-- Claim C6: after a successful `cleanup_old_backups(target, n)`, the
target holds at most `n` directories that are neither `_PARTIAL` nor
`.keephive*` (exactly `min n` (number of candidates), third conjunct);
entries skipped by the name rules (and non-directories) are untouched;
and every deleted candidate is no newer (by modification time) than any
kept candidate, so the kept candidates are the `n` newest. -/
theorem claim_C6_theorem (entries : List DirEntry) (n : Nat)
    (hnames : (entries.map DirEntry.name).Nodup) :
    ((cleanup_old_backups entries n).filter isBackupCandidate).length ≤ n ∧
    (∀ e ∈ entries, isBackupCandidate e = false → e ∈ cleanup_old_backups entries n) ∧
    ((cleanup_old_backups entries n).filter isBackupCandidate).length
      = min n (entries.filter isBackupCandidate).length ∧
    (∀ d ∈ entries, isBackupCandidate d = true → d ∉ cleanup_old_backups entries n →
      ∀ k ∈ cleanup_old_backups entries n, isBackupCandidate k = true →
        optLe d.mtime k.mtime = true) := by
  have hnodup : entries.Nodup := List.Nodup.of_map _ hnames
  set backups := entries.filter isBackupCandidate with hbackups
  set sorted := backups.mergeSort newestFirst with hsorted
  set doomed := sorted.drop n with hdoomed
  have hperm : sorted.Perm backups := List.mergeSort_perm backups newestFirst
  have hnodupB : backups.Nodup := List.Nodup.filter _ hnodup
  have hnodupS : sorted.Nodup := hperm.nodup_iff.mpr hnodupB
  have hsplit : List.take n sorted ++ doomed = sorted := List.take_append_drop n sorted
  have hdisj : (List.take n sorted).Disjoint doomed := by
    apply List.disjoint_of_nodup_append
    rw [hsplit]
    exact hnodupS
  have hrem : cleanup_old_backups entries n
      = entries.filter (fun e => !doomed.contains e) := rfl
  -- the kept candidates are exactly (up to permutation) the first n of the sort
  have hkept : ((cleanup_old_backups entries n).filter isBackupCandidate).Perm
      (List.take n sorted) := by
    rw [hrem, List.filter_filter]
    have hcongr : entries.filter (fun a => isBackupCandidate a && !doomed.contains a)
        = backups.filter (fun a => !doomed.contains a) := by
      rw [hbackups, List.filter_filter]
      apply List.filter_congr
      intro a _
      exact Bool.and_comm _ _
    rw [hcongr]
    have hpermF : (backups.filter (fun a => !doomed.contains a)).Perm
        (sorted.filter (fun a => !doomed.contains a)) :=
      (List.Perm.filter _ hperm).symm
    have hfilter_sorted : sorted.filter (fun a => !doomed.contains a) = List.take n sorted := by
      conv_lhs => rw [← hsplit]
      rw [List.filter_append]
      have h1 : (List.take n sorted).filter (fun a => !doomed.contains a)
          = List.take n sorted := by
        apply List.filter_eq_self.mpr
        intro a ha
        have hcf : doomed.contains a = false := by
          rw [← Bool.not_eq_true]
          intro hc
          exact hdisj ha (List.elem_iff.mp hc)
        show (!doomed.contains a) = true
        rw [hcf]
        rfl
      have h2 : doomed.filter (fun a => !doomed.contains a) = [] := by
        apply List.filter_eq_nil_iff.mpr
        intro a ha
        have hct : doomed.contains a = true := List.elem_iff.mpr ha
        show ¬(!doomed.contains a) = true
        rw [hct]
        decide
      rw [h1, h2, List.append_nil]
    rw [← hfilter_sorted]
    exact hpermF
  have hkeptlen : ((cleanup_old_backups entries n).filter isBackupCandidate).length
      = min n backups.length := by
    rw [hkept.length_eq, List.length_take, hperm.length_eq]
  refine ⟨?_, ?_, hkeptlen, ?_⟩
  · rw [hkeptlen]; omega
  · intro e he hcand
    rw [hrem, List.mem_filter]
    refine ⟨he, ?_⟩
    have hcf : doomed.contains e = false := by
      rw [← Bool.not_eq_true]
      intro hc
      have hmem : e ∈ backups := hperm.mem_iff.mp (List.mem_of_mem_drop (List.elem_iff.mp hc))
      rw [hbackups, List.mem_filter] at hmem
      rw [hmem.2] at hcand
      cases hcand
    show (!doomed.contains e) = true
    rw [hcf]
    rfl
  · intro d hd hcand hnotin k hk hkcand
    have hdmem : d ∈ doomed := by
      by_contra hcontra
      apply hnotin
      rw [hrem, List.mem_filter]
      refine ⟨hd, ?_⟩
      have hcf : doomed.contains d = false := by
        rw [← Bool.not_eq_true]
        intro hc
        exact hcontra (List.elem_iff.mp hc)
      show (!doomed.contains d) = true
      rw [hcf]
      rfl
    have hktake : k ∈ List.take n sorted := by
      apply hkept.mem_iff.mp
      rw [List.mem_filter]
      exact ⟨hk, hkcand⟩
    have hpair : List.Pairwise (fun a b => newestFirst a b = true) sorted :=
      List.sorted_mergeSort newestFirst_trans newestFirst_total backups
    have := (List.pairwise_append.mp (by rw [hsplit]; exact hpair)).2.2 k hktake d hdmem
    exact this

/-- Six snapshots with distinct times, plus a partial and a state
file. -/
def retentionExample : List DirEntry :=
  [⟨"snapA", true, some 10⟩, ⟨"snapB", true, some 30⟩, ⟨"snapC", true, some 20⟩,
   ⟨"snapD", true, some 50⟩, ⟨"snapE", true, some 40⟩, ⟨"snapF", true, some 60⟩,
   ⟨"old_PARTIAL", true, some 70⟩, ⟨".keephive_state.json", false, some 80⟩]

/-- Witness for claim C6 on six snapshots and `n = 3`: three candidates
remain and the partial/state entries survive. -/
theorem claim_C6_witness :
    ((cleanup_old_backups retentionExample 3).filter isBackupCandidate).length ≤ 3 ∧
    ((cleanup_old_backups retentionExample 3).filter isBackupCandidate).length
      = min 3 (retentionExample.filter isBackupCandidate).length ∧
    (⟨"old_PARTIAL", true, some 70⟩ : DirEntry) ∈ cleanup_old_backups retentionExample 3 ∧
    (⟨".keephive_state.json", false, some 80⟩ : DirEntry)
      ∈ cleanup_old_backups retentionExample 3 := by
  have h := claim_C6_theorem retentionExample 3 (by decide)
  exact ⟨h.1, h.2.2.1,
    h.2.1 ⟨"old_PARTIAL", true, some 70⟩ (by decide) (by decide),
    h.2.1 ⟨".keephive_state.json", false, some 80⟩ (by decide) (by decide)⟩

/-! ## Daemon: hot-reload of the configuration

Embeds `ServiceDaemon::handle_config_change` and the config-change arm
of `ServiceDaemon::run` (`src/src/service/daemon.rs`, lines 109-133 and
208-407), together with `Scheduler::detect_config_changes`
(`src/src/scheduler/engine.rs`, lines 129-185) and
`Scheduler::calculate_next_runs` (lines 20-44).
-/

/-- Embeds `LogRotation` (`src/src/config/models.rs`, lines 57-64). -/
inductive LogRotation
  | Daily
  | Hourly
  | Never
deriving DecidableEq, Repr

/-- Embeds `ServiceConfig` (`src/src/config/models.rs`, lines 28-51). -/
structure ServiceConfig where
  jobs : List BackupJob
  retention_count : Nat
  log_level : String
  state_path : String
  log_directory : Option String
  log_rotation : LogRotation
deriving DecidableEq, Repr

/-- Embeds `ConfigChangeType` (`src/src/scheduler/changes.rs`). -/
inductive ConfigChangeType
  | ScheduleOnly
  | PathChanged
  | PathAndSchedule
deriving DecidableEq, Repr

/-- Embeds `ModifiedJob` (`src/src/scheduler/changes.rs`). -/
structure ModifiedJob where
  job : BackupJob
  change_type : ConfigChangeType
deriving DecidableEq, Repr

/-- Embeds `ConfigChanges` (`src/src/scheduler/changes.rs`). -/
structure ConfigChanges where
  added : List BackupJob
  removed : List String
  modified : List ModifiedJob
deriving DecidableEq, Repr

/-- Embeds `Scheduler::detect_config_changes`
(`src/src/scheduler/engine.rs`, lines 129-185).  The `HashMap` keyed by
id keeps the last entry per id, hence the `reverse` before `find?`;
after validation ids are unique, so first and last coincide. -/
def detect_config_changes (old_jobs new_jobs : List BackupJob) : ConfigChanges :=
  let added := new_jobs.filter (fun j => !(old_jobs.any (fun o => o.id == j.id)))
  let removed := (old_jobs.filter (fun j => !(new_jobs.any (fun o => o.id == j.id)))).map (fun j => j.id)
  let modified := new_jobs.filterMap (fun j =>
    match old_jobs.reverse.find? (fun o => o.id == j.id) with
    | none => none
    | some o =>
      let schedule_changed := j.schedule ≠ o.schedule
      let path_changed := j.source ≠ o.source ∨ j.target ≠ o.target
      if schedule_changed ∧ path_changed then some ⟨j, .PathAndSchedule⟩
      else if path_changed then some ⟨j, .PathChanged⟩
      else if schedule_changed then some ⟨j, .ScheduleOnly⟩
      else none)
  ⟨added, removed, modified⟩

/-- Replaces the first record with a matching id by the image under
`f` (the mutation `update_job_state` applies through `get_job_mut`). -/
def updateFirstJob : List JobState → String → (JobState → JobState) → List JobState
  | [], _, _ => []
  | j :: rest, id, f => if j.id == id then f j :: rest else j :: updateFirstJob rest id f

/-- Embeds `StateManager::update_job_state`
(`src/src/state/manager.rs`, lines 104-130): mutate the first matching
record, stamp `last_updated`, persist a snapshot; a missing id only
warns.  Returns the new state, the new files and whether it returned
`Ok`. -/
def update_job_state (st : BackupState) (fs : StateFile) (id : String)
    (f : JobState → JobState) (now : Int) (o : SaveOutcome) :
    BackupState × StateFile × Bool :=
  if (st.get_job id).isSome then
    let st' := { st with jobs := updateFirstJob st.jobs id f, last_updated := now }
    let saved := save_state_atomic (serializeState st') fs o
    (st', saved.1, saved.2)
  else
    (st, fs, true)

/-- The daemon's mutable pieces: effective configuration, the executor's
retention count, the state document, the state files and the running-job
table (by id). -/
structure DaemonModel where
  config : ServiceConfig
  executorRetention : Nat
  st : BackupState
  fs : StateFile
  runningJobs : List String
deriving DecidableEq, Repr

/-- The error message of the path-change cancellation
(`daemon.rs`, lines 340-347 and 370-377). -/
def pathChangeError : ConfigChangeType → String
  | .PathChanged => "Backup cancelled due to source/target path change"
  | _ => "Backup cancelled due to configuration change"

/-- Embeds the modified-jobs loop of `handle_config_change`
(`daemon.rs`, lines 309-388): schedule-only changes do nothing;
path changes cancel a running job and mark it `Failed`, and always
re-stamp the paths; each mutation persists through `update_job_state`
whose failure propagates (`?`). -/
def applyModifiedJobs : DaemonModel → List ModifiedJob → Int → SaveOutcome → DaemonModel × Bool
  | d, [], _, _ => (d, true)
  | d, m :: rest, now, o =>
    match m.change_type with
    | .ScheduleOnly => applyModifiedJobs d rest now o
    | ct =>
      if d.runningJobs.contains m.job.id then
        let d' := { d with runningJobs := d.runningJobs.filter (fun id => !(id == m.job.id)) }
        let r := update_job_state d'.st d'.fs m.job.id
          (fun js => { js with status := .Failed (pathChangeError ct) now, source := m.job.source, target := m.job.target })
          now o
        let d2 := { d' with st := r.1, fs := r.2.1 }
        if r.2.2 then applyModifiedJobs d2 rest now o else (d2, false)
      else
        let r := update_job_state d.st d.fs m.job.id
          (fun js => { js with source := m.job.source, target := m.job.target }) now o
        let d2 := { d with st := r.1, fs := r.2.1 }
        if r.2.2 then applyModifiedJobs d2 rest now o else (d2, false)

/-- Embeds `Scheduler::calculate_next_runs`
(`src/src/scheduler/engine.rs`, lines 20-44): for each non-running job
compute `now + next_run_duration(last_run)` and write it back.  `none`
models the panic of an invalid schedule. -/
def calculate_next_runs :
    List BackupJob → BackupState → StateFile → Int → LocalInstant → SaveOutcome →
    Option (BackupState × StateFile × Bool)
  | [], st, fs, _, _, _ => some (st, fs, true)
  | job :: rest, st, fs, now, lnow, o =>
    let js := st.get_job job.id
    let isRun := match js with
      | some j => isRunningStatus j.status
      | none => false
    if isRun then calculate_next_runs rest st fs now lnow o
    else
      match next_run_duration job.schedule (js.bind (fun j => j.last_run)) lnow with
      | none => none
      | some dur =>
        let r := update_job_state st fs job.id (fun j => { j with next_run := some (now + dur) }) now o
        if r.2.2 then calculate_next_runs rest r.1 r.2.1 now lnow o
        else some (r.1, r.2.1, false)

/-- Outcome of one `handle_config_change` call. -/
inductive ReloadOutcome
  | ok (d : DaemonModel)
  | err (d : DaemonModel) (e : String)
  | panicked (d : DaemonModel)
deriving Repr

/-- Embeds `ServiceDaemon::handle_config_change`
(`src/src/service/daemon.rs`, lines 208-407): update the executor's
retention count, cancel removed jobs, process modified jobs, *replace
the effective configuration with the new one*, then `initialize_jobs`
(which re-validates ids) and `calculate_next_runs`; every `?` failure
propagates to the caller. -/
def handle_config_change (d : DaemonModel) (new_config : ServiceConfig) (now : Int)
    (lnow : LocalInstant) (o : SaveOutcome) : ReloadOutcome :=
  let d1 := if d.config.retention_count ≠ new_config.retention_count then
    { d with executorRetention := new_config.retention_count } else d
  let changes := detect_config_changes d1.config.jobs new_config.jobs
  let d2 := { d1 with runningJobs := d1.runningJobs.filter (fun id => !(changes.removed.contains id)) }
  let r3 := applyModifiedJobs d2 changes.modified now o
  if !r3.2 then .err r3.1 "state save failed"
  else
    let d4 := { r3.1 with config := new_config }
    let r5 := initialize_jobs d4.config.jobs d4.st d4.fs now o
    match r5.2.2 with
    | .error e => .err { d4 with st := r5.1, fs := r5.2.1 } e
    | .ok _ =>
      let d6 := { d4 with st := r5.1, fs := r5.2.1 }
      match calculate_next_runs d6.config.jobs d6.st d6.fs now lnow o with
      | none => .panicked d6
      | some (st', fs', saveOk) =>
        let d7 := { d6 with st := st', fs := fs' }
        if saveOk then .ok d7 else .err d7 "state save failed"

/-- What the daemon loop does with the call's result. -/
inductive DaemonStepResult
  | keepRunning (d : DaemonModel)
  | exitErr (d : DaemonModel) (e : String)
  | panicked (d : DaemonModel)
deriving Repr

/-- Embeds the config-change arm of the `select!` loop in
`ServiceDaemon::run` (`src/src/service/daemon.rs`, lines 118-128): the
`?` on `handle_config_change` makes any error terminate the loop and
return it from `run`. -/
def run_on_config_change (d : DaemonModel) (new_config : ServiceConfig) (now : Int)
    (lnow : LocalInstant) (o : SaveOutcome) : DaemonStepResult :=
  match handle_config_change d new_config now lnow o with
  | .ok d' => .keepRunning d'
  | .err d' e => .exitErr d' e
  | .panicked d' => .panicked d'

theorem update_job_state_success (st : BackupState) (fs : StateFile) (id : String)
    (f : JobState → JobState) (now : Int) :
    (update_job_state st fs id f now .success).2.2 = true := by
  unfold update_job_state
  split
  · rfl
  · rfl

theorem applyModifiedJobs_success (ms : List ModifiedJob) :
    ∀ (d : DaemonModel) (now : Int), (applyModifiedJobs d ms now .success).2 = true := by
  induction ms with
  | nil => intro d now; rfl
  | cons m rest ih =>
    intro d now
    unfold applyModifiedJobs
    cases m.change_type with
    | ScheduleOnly => exact ih _ _
    | PathChanged =>
      dsimp only
      by_cases hc : d.runningJobs.contains m.job.id = true
      · rw [if_pos hc]
        simp only [update_job_state_success]
        exact ih _ _
      · rw [if_neg hc]
        simp only [update_job_state_success]
        exact ih _ _
    | PathAndSchedule =>
      dsimp only
      by_cases hc : d.runningJobs.contains m.job.id = true
      · rw [if_pos hc]
        simp only [update_job_state_success]
        exact ih _ _
      · rw [if_neg hc]
        simp only [update_job_state_success]
        exact ih _ _

/-- Claim C3 (amended): a hot-reload event whose new configuration has a
duplicated job id does not leave the old configuration running — the
daemon replaces its effective configuration with the new one *before*
re-validating, `initialize_jobs` then fails, and the `?` in the run loop
terminates the daemon with that error. -/
theorem claim_C3_theorem (d : DaemonModel) (new_config : ServiceConfig) (now : Int)
    (lnow : LocalInstant) (hdup : findDups new_config.jobs ≠ []) :
    ∃ d', run_on_config_change d new_config now lnow .success
        = .exitErr d' (duplicateErrorMsg (findDups new_config.jobs)) ∧
      d'.config = new_config := by
  unfold run_on_config_change handle_config_change
  simp only [applyModifiedJobs_success, Bool.not_true]
  rw [if_neg (by decide)]
  rw [initialize_jobs_dup _ _ _ _ _ hdup]
  exact ⟨_, rfl, rfl⟩

/-- The old configuration of the counterexample: one job `a`. -/
def oldCfg : ServiceConfig :=
  ⟨[⟨"a", "sa", "ta", .interval 60, ""⟩], 5, "info", ".keephive_state.json", none, .Daily⟩

/-- The new configuration of the counterexample: job `b` twice. -/
def newCfgDup : ServiceConfig :=
  ⟨[⟨"b", "sb", "tb", .interval 60, ""⟩, ⟨"b", "sb2", "tb2", .interval 120, ""⟩],
   5, "info", ".keephive_state.json", none, .Daily⟩

/-- The daemon before the hot-reload event. -/
def daemonBefore : DaemonModel :=
  ⟨oldCfg, 5, BackupState.new 0, ⟨none, none⟩, []⟩

/-- Claim C3 fails on the code: on a hot-reload carrying a duplicate job
id, the daemon loop *does* terminate (the error propagates out of
`run`), and the effective configuration at that point is the rejected
new one, not the old one. -/
theorem claim_C3_counterexample :
    run_on_config_change daemonBefore newCfgDup 0 (localClock 0 0 0) .success
      = .exitErr { daemonBefore with config := newCfgDup }
          (duplicateErrorMsg (findDups newCfgDup.jobs)) ∧
    ({ daemonBefore with config := newCfgDup } : DaemonModel).config ≠ oldCfg := by
  constructor
  · rfl
  · decide

/-- Witness for claim C3's amended theorem at the concrete daemon and
duplicate configuration above. -/
theorem claim_C3_witness :
    ∃ d', run_on_config_change daemonBefore newCfgDup 0 (localClock 0 0 0) .success
        = .exitErr d' (duplicateErrorMsg (findDups newCfgDup.jobs)) ∧
      d'.config = newCfgDup :=
  claim_C3_theorem daemonBefore newCfgDup 0 (localClock 0 0 0) (by decide)

end KeepHive

